import Mathlib

/-!
Verification of the sqlingo code generator (package `generator`).

The development shallowly embeds the generator's core routines:
`convertToExportedIdentifier` (identifier normalization, generator.go:36),
`getType` (column type mapping, generator.go:73), `generateTable`'s
field-emission loop (generator.go:263) and the orchestration in
`Generate` (generator.go:163), and proves the specification's claims
about them.

Strings are modelled at the character-list level where induction is
needed.  Go's `unicode` and `strings` case functions are full Unicode;
the inputs handled by the generator (SQL identifiers and raw type
names) are ASCII, and we model the ASCII fragment, on which Go's
`unicode.IsLetter`/`IsDigit`/`IsUpper`/`ToUpper`/`ToLower` and
`strings.EqualFold`/`ToLower` agree with the definitions below.

Each `bytes.Buffer` is modelled as the list of the strings written to
it; the buffer's content is their concatenation (for `fieldsSQL` and
`fullFieldsSQL`, whose loop inserts `", "` before every chunk but the
first, the content is the `", "`-intercalation).
-/

namespace SqlingoGen

/-! ## Character-level helpers (ASCII fragments of Go's `unicode` package) -/

/-- ASCII fragment of Go's `unicode.IsUpper`. -/
def isUpperC (c : Char) : Bool := decide (65 ≤ c.toNat ∧ c.toNat ≤ 90)

/-- ASCII fragment of Go's `unicode.IsLower`. -/
def isLowerC (c : Char) : Bool := decide (97 ≤ c.toNat ∧ c.toNat ≤ 122)

/-- ASCII fragment of Go's `unicode.IsDigit`. -/
def isDigitC (c : Char) : Bool := decide (48 ≤ c.toNat ∧ c.toNat ≤ 57)

/-- ASCII fragment of Go's `unicode.IsLetter`. -/
def isAlphaC (c : Char) : Bool := isUpperC c || isLowerC c

/-- `unicode.IsLetter(r) || unicode.IsDigit(r)`, the word-character test of
`convertToExportedIdentifier` (generator.go:40). -/
def isAlnumChar (c : Char) : Bool := isAlphaC c || isDigitC c

/-- ASCII fragment of Go's `unicode.ToUpper`. -/
def toUpperC (c : Char) : Char :=
  if 97 ≤ c.toNat ∧ c.toNat ≤ 122 then Char.ofNat (c.toNat - 32) else c

/-- ASCII fragment of Go's `unicode.ToLower` (also used by `strings.ToLower`
and, character-wise, by `strings.EqualFold`). -/
def toLowerC (c : Char) : Char :=
  if 65 ≤ c.toNat ∧ c.toNat ≤ 90 then Char.ofNat (c.toNat + 32) else c

/-! ## Identifier normalizer (`convertToExportedIdentifier`, generator.go:36-71) -/

/-- `words[len(words)-1] += string(r)` (generator.go:46): append a character to
the last word.  The `[]` case is unreachable: the loop only takes this path
after at least one word has been created. -/
def appendLastWord : List (List Char) → Char → List (List Char)
  | [], c => [[c]]
  | [w], c => [w ++ [c]]
  | w :: ws, c => w :: appendLastWord ws c

/-- The word-collecting loop of `convertToExportedIdentifier`
(generator.go:37-51): `words` is the accumulator, the `Bool` is
`nextCharShouldBeUpperCase`. -/
def wordLoop : List (List Char) → Bool → List Char → List (List Char)
  | words, _, [] => words
  | words, nextUpper, c :: rest =>
    if isAlnumChar c then
      if nextUpper then wordLoop (words ++ [[toUpperC c]]) false rest
      else wordLoop (appendLastWord words c) false rest
    else wordLoop words true rest

/-- `strings.EqualFold` (ASCII fragment): equality after lower-casing both
sides (generator.go:55). -/
def equalFold (a b : List Char) : Bool := a.map toLowerC == b.map toLowerC

/-- The inner `forceCases` loop of `convertToExportedIdentifier`
(generator.go:54-59): the first entry that case-insensitively equals the word
replaces it. -/
def applyForceCases (forceCases : List (List Char)) (word : List Char) : List Char :=
  match forceCases.find? (fun caseWord => equalFold word caseWord) with
  | some caseWord => caseWord
  | none => word

/-- `convertToExportedIdentifier` (generator.go:36-71) over character lists:
collect words, apply `forceCases`, concatenate, and prefix `'E'` when the
result is empty or does not start with an upper-case letter. -/
def convertToExportedIdentifier (s : List Char) (forceCases : List (List Char)) :
    List Char :=
  let words := wordLoop [] true s
  let result := (words.map (applyForceCases forceCases)).flatten
  match result with
  | [] => ['E']
  | c :: _ => if isUpperC c then result else 'E' :: result

/-- `convertToExportedIdentifier` over `String`, as used by the emitter. -/
def convertToExportedIdentifierS (s : String) (forceCases : List String) : String :=
  ⟨convertToExportedIdentifier s.data (forceCases.map String.data)⟩

/-- Specification-side word splitter: the maximal runs of letters/digits of
the input, with the first character of each run upper-cased and the rest left
as-is. -/
def capWords : List Char → List (List Char)
  | [] => []
  | c :: rest =>
    if isAlnumChar c then
      (toUpperC c :: rest.takeWhile isAlnumChar) :: capWords (rest.dropWhile isAlnumChar)
    else capWords rest
termination_by l => l.length
decreasing_by
· simp only [List.length_cons]
  refine Nat.lt_succ_of_le ?_
  have hgen : ∀ l : List Char, (List.dropWhile isAlnumChar l).length ≤ l.length := by
    intro l
    induction l with
    | nil => simp
    | cons a t ih =>
      rw [List.dropWhile_cons]
      by_cases h : isAlnumChar a
      · rw [if_pos h]
        exact Nat.le_trans ih (Nat.le_succ _)
      · rw [if_neg h]
  exact hgen _
· simp only [List.length_cons]
  exact Nat.lt_succ_self _

/-- Specification-side normalized concatenation: force-cased maximal runs,
concatenated with no separator (no sentinel-letter fix-up). -/
def normalizedConcat (s : List Char) (forceCases : List (List Char)) : List Char :=
  ((capWords s).map (applyForceCases forceCases)).flatten

/-- Specification-side sentinel fix-up: prefix the sentinel letter `'E'` when
the concatenation is empty or does not start with an upper-case letter. -/
def exportedFix : List Char → List Char
  | [] => ['E']
  | c :: rest => if isUpperC c then c :: rest else 'E' :: c :: rest

/-! ## Type mapper (`getType`, generator.go:73-119) -/

/-- `strings.ToLower` (ASCII fragment). -/
def toLowerStr (s : String) : String := ⟨s.data.map toLowerC⟩

/-- `strings.HasPrefix` over character lists. -/
def listStarts : List Char → List Char → Bool
  | [], _ => true
  | _ :: _, [] => false
  | p :: ps, c :: cs => p == c && listStarts ps cs

/-- `strings.HasPrefix(s, pre)`. -/
def strStartsWith (s pre : String) : Bool := listStarts pre.data s.data

/-- `fieldDescriptor` (generator.go:27-34).  The Go field `Type` is called
`rawType` here because `Type` is not a legal Lean field name. -/
structure FieldDescriptor where
  Name : String
  rawType : String
  Size : Int
  Unsigned : Bool
  AllowNull : Bool
  Comment : String
deriving DecidableEq

/-- The `switch strings.ToLower(fieldDescriptor.Type)` of `getType`
(generator.go:74-111), before the `Unsigned`/`AllowNull` post-processing:
`none` models reaching the `default` branch. -/
def baseType (fd : FieldDescriptor) : Option (String × String) :=
  let lt := toLowerStr fd.rawType
  if lt = "tinyint" then some ("int8", "NumberField")
  else if lt = "smallint" then some ("int16", "NumberField")
  else if lt = "int" ∨ lt = "mediumint" then some ("int32", "NumberField")
  else if lt = "bigint" ∨ lt = "integer" then some ("int64", "NumberField")
  else if lt = "float" ∨ lt = "double" ∨ lt = "decimal" ∨ lt = "real" then
    some ("float64", "NumberField")
  else if lt ∈ ["char", "varchar", "text", "tinytext", "mediumtext", "longtext",
      "enum", "datetime", "date", "time", "timestamp", "json", "numeric",
      "character varying"] then
    some ("string", "StringField")
  else if lt ∈ ["binary", "varbinary", "blob", "tinyblob", "mediumblob", "longblob"] then
    some ("string", "StringField")
  else if lt ∈ ["geometry", "point", "linestring", "polygon", "multipoint",
      "multilinestring", "multipolygon", "geometrycollection"] then
    some ("sqlingo.WellKnownBinary", "WellKnownBinaryField")
  else if lt = "bit" then
    (if fd.Size = 1 then some ("bool", "BooleanField") else some ("string", "StringField"))
  else none

/-- `if fieldDescriptor.Unsigned && strings.HasPrefix(goType, "int") { goType = "u" + goType }`
(generator.go:112-114). -/
def unsignedWrap (unsigned : Bool) (goType : String) : String :=
  if unsigned && strStartsWith goType "int" then "u" ++ goType else goType

/-- `if fieldDescriptor.AllowNull { goType = "*" + goType }` (generator.go:115-117). -/
def nullWrap (allowNull : Bool) (goType : String) : String :=
  if allowNull then "*" ++ goType else goType

/-- `getType` (generator.go:73-119): family switch, then the unsigned and
nullable post-processing, in that order; the `default` branch returns the
`unknown field type` error. -/
def getType (fd : FieldDescriptor) : Except String (String × String) :=
  match baseType fd with
  | none => .error ("unknown field type " ++ fd.rawType)
  | some (goType, fieldClass) =>
    .ok (nullWrap fd.AllowNull (unsignedWrap fd.Unsigned goType), fieldClass)

/-- The raw type names recognized by `getType`'s switch (lower-cased). -/
def recognizedRawTypes : List String :=
  ["tinyint", "smallint", "int", "mediumint", "bigint", "integer",
   "float", "double", "decimal", "real",
   "char", "varchar", "text", "tinytext", "mediumtext", "longtext",
   "enum", "datetime", "date", "time", "timestamp", "json", "numeric",
   "character varying",
   "binary", "varbinary", "blob", "tinyblob", "mediumblob", "longblob",
   "geometry", "point", "linestring", "polygon", "multipoint",
   "multilinestring", "multipolygon", "geometrycollection", "bit"]

/-- The integer scalar types produced by the family switch. -/
def isIntBase (goType : String) : Bool :=
  goType == "int8" || goType == "int16" || goType == "int32" || goType == "int64"

/-- `getType` mapped over a descriptor list, stopping at the first error. -/
def getTypes : List FieldDescriptor → Except String (List (String × String))
  | [] => .ok []
  | fd :: rest =>
    match getType fd with
    | .error e => .error e
    | .ok g =>
      match getTypes rest with
      | .error e => .error e
      | .ok gs => .ok (g :: gs)

/-! ## Table emitter (`generateTable`, generator.go:263-371) -/

/-- `strconv.Quote`, for strings that contain no characters needing an
escape sequence (the generator applies it to identifiers). -/
def quoteLit (s : String) : String := "\"" ++ s ++ "\""

/-- `ensureIdentifier` (generator.go:138-144): replace every non-word
character (Go regexp `\W`, i.e. not `[0-9A-Za-z_]`) by `'_'` and prefix
`'_'` if the result is empty or starts with a digit. -/
def ensureIdentifier (name : String) : String :=
  let result : String := ⟨name.data.map (fun c => if isAlnumChar c || c == '_' then c else '_')⟩
  match result.data with
  | [] => "_" ++ result
  | c :: _ => if 48 ≤ c.toNat ∧ c.toNat ≤ 57 then "_" ++ result else result

/-- `string(fieldClass[0]+'a'-'A') + fieldClass[1:]` (generator.go:288).
Every `fieldClass` starts with an upper-case letter, on which `toLowerC`
is exactly the `+'a'-'A'` shift. -/
def lowerFirst (s : String) : String :=
  match s.data with
  | [] => s
  | c :: rest => ⟨toLowerC c :: rest⟩

/-- The per-field comment line (generator.go:290-293). -/
def commentLineOf (fd : FieldDescriptor) : String :=
  if fd.Comment = "" then "" else "\t// " ++ (fd.Comment.replace "\n" " ") ++ "\n"

/-- The private wrapper-type name
`strings.ToLower(fieldDescriptor.Type) + "_" + className + "_" + goName`
(generator.go:295). -/
def fieldStructNameOf (fd : FieldDescriptor) (className : String) (fc : List String) :
    String :=
  toLowerStr fd.rawType ++ "_" ++ className ++ "_" ++ convertToExportedIdentifierS fd.Name fc

/-- The nine per-table buffers of `generateTable` (generator.go:275-277). -/
structure TableParts where
  tableLines : List String
  modelLines : List String
  objectLines : List String
  fieldCaseLines : List String
  classLines : List String
  fields : List String
  fieldsSQL : List String
  fullFieldsSQL : List String
  values : List String
deriving DecidableEq

/-- One iteration of the field loop of `generateTable` (generator.go:280-324):
the strings the iteration appends to each buffer, given the `getType`
result for the descriptor. -/
def appendFd (quote : String → String) (tableName className tableObjectName : String)
    (fc : List String) (fd : FieldDescriptor) (goType fieldClass : String)
    (p : TableParts) : TableParts :=
  let goName := convertToExportedIdentifierS fd.Name fc
  let privateFieldClass := lowerFirst fieldClass
  let commentLine := commentLineOf fd
  let fieldStructName := fieldStructNameOf fd className fc
  { tableLines := p.tableLines ++
      [commentLine ++ "\t" ++ goName ++ " " ++ fieldStructName ++ "\n"]
    modelLines := p.modelLines ++
      [commentLine ++ "\t" ++ goName ++ " " ++ goType ++ "\n"]
    objectLines := p.objectLines ++
      [commentLine ++ "\t" ++ goName ++ ": " ++ fieldStructName ++ "\x7b" ++
        "sqlingo.New" ++ fieldClass ++ "(" ++ tableObjectName ++ ", " ++
        quoteLit fd.Name ++ ")\x7d,\n"]
    fieldCaseLines := p.fieldCaseLines ++
      ["\tcase " ++ quoteLit fd.Name ++ ": return t." ++ goName ++ "\n"]
    classLines := p.classLines ++
      ["type " ++ fieldStructName ++ " struct\x7b " ++ privateFieldClass ++ " \x7d\n"]
    fields := p.fields ++ ["t." ++ goName ++ ", "]
    fieldsSQL := p.fieldsSQL ++ [quote fd.Name]
    fullFieldsSQL := p.fullFieldsSQL ++ [quote tableName ++ "." ++ quote fd.Name]
    values := p.values ++ ["m." ++ goName ++ ", "] }

/-- The field loop of `generateTable` (generator.go:280-324), aborting with
the first `getType` error. -/
def tableLoop (quote : String → String) (tableName className tableObjectName : String)
    (fc : List String) : List FieldDescriptor → TableParts → Except String TableParts
  | [], p => .ok p
  | fd :: rest, p =>
    match getType fd with
    | .error e => .error e
    | .ok (goType, fieldClass) =>
      tableLoop quote tableName className tableObjectName fc rest
        (appendFd quote tableName className tableObjectName fc fd goType fieldClass p)

/-- The buffers before the loop runs: `objectLines` already holds the
`table:` initializer (generator.go:278). -/
def initialParts (tableObjectName : String) : TableParts :=
  { tableLines := [], modelLines := []
    objectLines := ["\ttable: " ++ tableObjectName ++ ",\n\n"]
    fieldCaseLines := [], classLines := [], fields := []
    fieldsSQL := [], fullFieldsSQL := [], values := [] }

/-- The per-table buffers produced by `generateTable` for a descriptor list
(generator.go:269-324). -/
def generateTableParts (quote : String → String) (tableName : String) (fc : List String)
    (fds : List FieldDescriptor) : Except String TableParts :=
  let className := convertToExportedIdentifierS tableName fc
  let tableObjectName := "o" ++ className
  tableLoop quote tableName className tableObjectName fc fds (initialParts tableObjectName)

/-- `newBuffWithBaseHeader` (generator.go:146-153). -/
def headerChunks (packageName : String) : List String :=
  ["// This file is generated by sqlingo (https://github.com/lqs/sqlingo)\n",
   "// DO NOT EDIT.\n\n",
   "package " ++ ensureIdentifier packageName ++ "_dsl\n",
   "import \"github.com/lqs/sqlingo\"\n\n"]

/-- The strings written to the per-table output buffer (generator.go:326-368),
in order. -/
def tableUnitChunks (dbName tableName : String) (fc : List String) (p : TableParts) :
    List String :=
  let className := convertToExportedIdentifierS tableName fc
  let tableStructName := "t" ++ className
  let tableObjectName := "o" ++ className
  let modelClassName := className ++ "Model"
  headerChunks dbName ++
  ["",
   "type " ++ tableStructName ++ " struct \x7b\n\ttable\n\n",
   String.join p.tableLines,
   "\x7d\n\n",
   String.join p.classLines,
   "var " ++ tableObjectName ++ " = sqlingo.NewTable(" ++ quoteLit tableName ++ ")\n",
   "var " ++ className ++ " = " ++ tableStructName ++ "\x7b\n",
   String.join p.objectLines,
   "\x7d\n\n",
   "func (t t" ++ className ++ ") GetFields() []sqlingo.Field \x7b\n",
   "\treturn []sqlingo.Field\x7b" ++ String.join p.fields ++ "\x7d\n",
   "\x7d\n\n",
   "func (t t" ++ className ++ ") GetFieldByName(name string) sqlingo.Field \x7b\n",
   "\tswitch name \x7b\n",
   String.join p.fieldCaseLines,
   "\tdefault: return nil\n",
   "\t\x7d\n",
   "\x7d\n\n",
   "func (t t" ++ className ++ ") GetFieldsSQL() string \x7b\n",
   "\treturn " ++ quoteLit (String.intercalate ", " p.fieldsSQL) ++ "\n",
   "\x7d\n\n",
   "func (t t" ++ className ++ ") GetFullFieldsSQL() string \x7b\n",
   "\treturn " ++ quoteLit (String.intercalate ", " p.fullFieldsSQL) ++ "\n",
   "\x7d\n\n",
   "type " ++ modelClassName ++ " struct \x7b\n",
   String.join p.modelLines,
   "\x7d\n\n",
   "func (m " ++ modelClassName ++ ") GetTable() sqlingo.Table \x7b\n",
   "\treturn " ++ className ++ "\n",
   "\x7d\n\n",
   "func (m " ++ modelClassName ++ ") GetValues() []interface\x7b\x7d \x7b\n",
   "\treturn []interface\x7b\x7d\x7b" ++ String.join p.values ++ "\x7d\n",
   "\x7d\n\n"]

/-! ## Orchestrator (`Generate`, generator.go:163-242)

Flag parsing, the driver connection, `WriteToFile` and the interactive
overwrite prompt are external collaborators (spec section 1); the
orchestration below covers database-name discovery, table discovery, the
base unit and the per-table units. -/

/-- `sqlingoGeneratorVersion` (generator.go:16-18). -/
def sqlingoGeneratorVersion : Nat := 2

/-- `generateGetTable` (generator.go:244-261). -/
def generateGetTableChunks (tableNames : List String) (fc : List String) : List String :=
  ["func GetTable(name string) sqlingo.Table \x7b\n", "\tswitch name \x7b\n"] ++
  tableNames.map (fun tn =>
    "\tcase " ++ quoteLit tn ++ ": return " ++ convertToExportedIdentifierS tn fc ++ "\n") ++
  ["\tdefault: return nil\n", "\t\x7d\n", "\x7d\n\n",
   "func GetTables() []sqlingo.Table \x7b\n", "\treturn []sqlingo.Table\x7b\n"] ++
  tableNames.map (fun tn => "\t" ++ convertToExportedIdentifierS tn fc ++ ",\n") ++
  ["\t\x7d", "\x7d\n\n"]

/-- The strings written to the base unit buffer (generator.go:197-227). -/
def baseUnitChunks (dbName : String) (tableNames : List String) (fc : List String) :
    List String :=
  headerChunks dbName ++
  ["type sqlingoRuntimeAndGeneratorVersionsShouldBeTheSame uint32\n\n",
   "const _ = sqlingoRuntimeAndGeneratorVersionsShouldBeTheSame(sqlingo.SqlingoRuntimeVersion - " ++
     toString sqlingoGeneratorVersion ++ ")\n",
   "const _ = sqlingoRuntimeAndGeneratorVersionsShouldBeTheSame(" ++
     toString sqlingoGeneratorVersion ++ " - sqlingo.SqlingoRuntimeVersion)\n\n",
   "type table interface \x7b\n", "\tsqlingo.Table\n", "\x7d\n\n",
   "type numberField interface \x7b\n", "\tsqlingo.NumberField\n", "\x7d\n\n",
   "type stringField interface \x7b\n", "\tsqlingo.StringField\n", "\x7d\n\n",
   "type booleanField interface \x7b\n", "\tsqlingo.BooleanField\n", "\x7d\n\n"] ++
  generateGetTableChunks tableNames fc

/-- `schemaFetcher` (generator.go:20-25), as a record of capabilities. -/
structure SchemaFetcher where
  GetDatabaseName : Except String String
  GetTableNames : Except String (List String)
  GetFieldDescriptors : String → Except String (List FieldDescriptor)
  QuoteIdentifier : String → String

/-- `options` (args.go:8-12). -/
structure Options where
  dataSourceName : String
  tableNames : List String
  forceCases : List String

/-- `generateTable` (generator.go:263-371), returning the unit's content. -/
def generateTableUnit (f : SchemaFetcher) (dbName tableName : String)
    (fc : List String) : Except String String :=
  match f.GetFieldDescriptors tableName with
  | .error e => .error e
  | .ok fds =>
    match generateTableParts f.QuoteIdentifier tableName fc fds with
    | .error e => .error e
    | .ok p => .ok (String.join (tableUnitChunks dbName tableName fc p))

/-- The per-table loop of `Generate` (generator.go:233-239): one emitted unit
per table name, in order, aborting on the first error. -/
def emitTables (f : SchemaFetcher) (dbName : String) (fc : List String) :
    List String → Except String (List (String × String))
  | [] => .ok []
  | tn :: rest =>
    match generateTableUnit f dbName tn fc with
    | .error e => .error e
    | .ok u =>
      match emitTables f dbName fc rest with
      | .error e => .error e
      | .ok us => .ok ((tn, u) :: us)

/-- `Generate` (generator.go:188-241): discover the database name, resolve
the table list (the explicit list when non-empty, otherwise
`GetTableNames`, generator.go:221-226), emit the base unit and one unit per
table. -/
def generateUnits (f : SchemaFetcher) (opts : Options) :
    Except String (List String × List (String × String)) :=
  match f.GetDatabaseName with
  | .error e => .error e
  | .ok dbName =>
    if dbName = "" then .error "no database selected"
    else
      match (if opts.tableNames.length = 0 then f.GetTableNames else .ok opts.tableNames) with
      | .error e => .error e
      | .ok tableNames =>
        match emitTables f dbName opts.forceCases tableNames with
        | .error e => .error e
        | .ok units => .ok (baseUnitChunks dbName tableNames opts.forceCases, units)

/-! ## Concrete inputs used by the witness theorems -/

instance exceptDecEq {ε α : Type} [DecidableEq ε] [DecidableEq α] :
    DecidableEq (Except ε α) := fun a b =>
  match a, b with
  | .error e, .error e' =>
    if h : e = e' then isTrue (by rw [h]) else isFalse (fun hc => h (Except.error.inj hc))
  | .error _, .ok _ => isFalse (fun hc => Except.noConfusion hc)
  | .ok _, .error _ => isFalse (fun hc => Except.noConfusion hc)
  | .ok a, .ok a' =>
    if h : a = a' then isTrue (by rw [h]) else isFalse (fun hc => h (Except.ok.inj hc))

/-- A backtick-quoting identifier quoter, as a MySQL-style fetcher would
supply. -/
def quoteW (s : String) : String := "`" ++ s ++ "`"

/-- A one-column descriptor list for the witness computations. -/
def fdsW : List FieldDescriptor :=
  [{ Name := "id", rawType := "bigint", Size := 0, Unsigned := false,
     AllowNull := false, Comment := "" }]

/-- The buffers `generateTable` produces for `fdsW` on table `users`. -/
def partsW : TableParts :=
  { tableLines := ["\tId bigint_Users_Id\n"]
    modelLines := ["\tId int64\n"]
    objectLines := ["\ttable: oUsers,\n\n",
      "\tId: bigint_Users_Id\x7bsqlingo.NewNumberField(oUsers, \"id\")\x7d,\n"]
    fieldCaseLines := ["\tcase \"id\": return t.Id\n"]
    classLines := ["type bigint_Users_Id struct\x7b numberField \x7d\n"]
    fields := ["t.Id, "]
    fieldsSQL := ["`id`"]
    fullFieldsSQL := ["`users`.`id`"]
    values := ["m.Id, "] }

/-- A schema fetcher over a two-table schema, for the witness computations. -/
def fetcherW : SchemaFetcher :=
  { GetDatabaseName := .ok "db"
    GetTableNames := .ok ["orders", "users"]
    GetFieldDescriptors := fun _ => .ok fdsW
    QuoteIdentifier := quoteW }

/-- Options selecting the explicit table list `["orders"]`. -/
def optsW : Options :=
  { dataSourceName := "dsn", tableNames := ["orders"], forceCases := [] }

/-- An `int` column named `id`, for the wrapper-name witness computations. -/
def fdIdIntW : FieldDescriptor :=
  { Name := "id", rawType := "int", Size := 0, Unsigned := false,
    AllowNull := false, Comment := "" }

/-! ## Character and list lemmas -/

theorem char_toNat_ofNat (n : Nat) (h : n < 55296) : (Char.ofNat n).toNat = n := by
  have hv : n.isValidChar := Or.inl h
  simp [Char.ofNat, hv, Char.ofNatAux, Char.toNat, UInt32.ofNatCore, UInt32.toNat]

theorem isAlnum_toUpperC (c : Char) (h : isAlnumChar c = true) :
    isAlnumChar (toUpperC c) = true := by
  unfold isAlnumChar isAlphaC isUpperC isLowerC isDigitC at *
  unfold toUpperC
  by_cases hl : 97 ≤ c.toNat ∧ c.toNat ≤ 122
  · rw [if_pos hl]
    rw [char_toNat_ofNat (c.toNat - 32) (by omega)]
    simp only [Bool.or_eq_true, decide_eq_true_eq] at *
    omega
  · rw [if_neg hl]
    exact h

theorem toUpperC_of_upper (c : Char) (h : isUpperC c = true) : toUpperC c = c := by
  unfold isUpperC at h
  simp only [decide_eq_true_eq] at h
  unfold toUpperC
  rw [if_neg (by omega)]

theorem alnum_of_toLowerC_eq (c d : Char) (hd : isAlnumChar d = true)
    (h : toLowerC c = toLowerC d) : isAlnumChar c = true := by
  unfold isAlnumChar isAlphaC isUpperC isLowerC isDigitC at *
  by_cases hc : 65 ≤ c.toNat ∧ c.toNat ≤ 90
  · simp only [Bool.or_eq_true, decide_eq_true_eq]
    omega
  · unfold toLowerC at h
    rw [if_neg hc] at h
    by_cases hdu : 65 ≤ d.toNat ∧ d.toNat ≤ 90
    · rw [if_pos hdu] at h
      have : c.toNat = d.toNat + 32 := by
        rw [h, char_toNat_ofNat (d.toNat + 32) (by omega)]
      simp only [Bool.or_eq_true, decide_eq_true_eq]
      omega
    · rw [if_neg hdu] at h
      rw [h]
      exact hd

theorem mem_takeWhile_pred (p : Char → Bool) (l : List Char) (c : Char)
    (h : c ∈ l.takeWhile p) : p c = true ∧ c ∈ l := by
  induction l with
  | nil => simp [List.takeWhile] at h
  | cons a rest ih =>
    rw [List.takeWhile_cons] at h
    by_cases ha : p a
    · rw [if_pos ha] at h
      rcases List.mem_cons.mp h with rfl | h
      · exact ⟨ha, List.mem_cons_self _ _⟩
      · rcases ih h with ⟨h1, h2⟩
        exact ⟨h1, List.mem_cons_of_mem _ h2⟩
    · rw [if_neg ha] at h
      simp at h

theorem takeWhile_all (p : Char → Bool) (l : List Char) (h : ∀ c ∈ l, p c = true) :
    l.takeWhile p = l := by
  induction l with
  | nil => rfl
  | cons a rest ih =>
    have ha : p a = true := h a (List.mem_cons_self _ _)
    rw [List.takeWhile_cons, if_pos ha, ih fun c hc => h c (List.mem_cons_of_mem _ hc)]

theorem dropWhile_all (p : Char → Bool) (l : List Char) (h : ∀ c ∈ l, p c = true) :
    l.dropWhile p = [] := by
  induction l with
  | nil => rfl
  | cons a rest ih =>
    have ha : p a = true := h a (List.mem_cons_self _ _)
    rw [List.dropWhile_cons, if_pos ha]
    exact ih fun c hc => h c (List.mem_cons_of_mem _ hc)

/-! ## Normalizer lemmas -/

theorem appendLastWord_snoc (ws : List (List Char)) (w : List Char) (c : Char) :
    appendLastWord (ws ++ [w]) c = ws ++ [w ++ [c]] := by
  induction ws with
  | nil => rfl
  | cons a ws ih =>
    cases ws with
    | nil => rfl
    | cons b ws => simpa [appendLastWord] using ih

/-- The imperative word loop computes the capitalized maximal runs: with the
flag set it appends the runs of the remaining input; with the flag cleared it
first extends the last word by the leading run. -/
theorem wordLoop_spec (s : List Char) :
    (∀ ws, wordLoop ws true s = ws ++ capWords s) ∧
    (∀ ws w, wordLoop (ws ++ [w]) false s =
      ws ++ (w ++ s.takeWhile isAlnumChar) :: capWords (s.dropWhile isAlnumChar)) := by
  induction s with
  | nil => simp [wordLoop, capWords]
  | cons c rest ih =>
    constructor
    · intro ws
      rw [wordLoop]
      by_cases hc : isAlnumChar c
      · rw [if_pos hc, if_pos rfl, (ih.2) ws [toUpperC c]]
        rw [capWords, if_pos hc]
        simp
      · rw [if_neg hc, (ih.1) ws, capWords, if_neg hc]
    · intro ws w
      rw [wordLoop]
      by_cases hc : isAlnumChar c
      · rw [if_pos hc]
        simp only [Bool.false_eq_true, if_false]
        rw [appendLastWord_snoc, (ih.2) ws (w ++ [c])]
        rw [List.takeWhile_cons, if_pos hc, List.dropWhile_cons, if_pos hc]
        simp
      · rw [if_neg hc, (ih.1) (ws ++ [w])]
        rw [List.takeWhile_cons, if_neg hc, List.dropWhile_cons, if_neg hc]
        simp [capWords, hc]

theorem wordLoop_eq_capWords (s : List Char) : wordLoop [] true s = capWords s := by
  simpa using (wordLoop_spec s).1 []

/-- `convertToExportedIdentifier` is the sentinel fix-up of the force-cased
concatenation of the capitalized maximal runs. -/
theorem convert_eq_fix_concat (s : List Char) (fc : List (List Char)) :
    convertToExportedIdentifier s fc = exportedFix (normalizedConcat s fc) := by
  simp only [convertToExportedIdentifier, normalizedConcat]
  rw [wordLoop_eq_capWords]
  cases ((capWords s).map (applyForceCases fc)).flatten with
  | nil => rfl
  | cons c r => rfl

theorem capWords_all_alnum (s : List Char) :
    ∀ w ∈ capWords s, ∀ c ∈ w, isAlnumChar c = true := by
  induction s using capWords.induct with
  | case1 => simp [capWords]
  | case2 c rest hc ih =>
    rw [capWords, if_pos hc]
    intro w hw d hd
    rcases List.mem_cons.mp hw with rfl | hw
    · rcases List.mem_cons.mp hd with rfl | hd
      · exact isAlnum_toUpperC c hc
      · exact (mem_takeWhile_pred _ _ _ hd).1
    · exact ih w hw d hd
  | case3 c rest hc ih =>
    rw [capWords, if_neg hc]
    exact ih

theorem capWords_nil_of_no_alnum (s : List Char)
    (h : ∀ c ∈ s, isAlnumChar c = false) : capWords s = [] := by
  induction s with
  | nil => simp [capWords]
  | cons c rest ih =>
    rw [capWords, if_neg (by simp [h c (List.mem_cons_self _ _)])]
    exact ih fun d hd => h d (List.mem_cons_of_mem _ hd)

theorem applyForceCases_all_alnum (fc : List (List Char)) (w : List Char)
    (hw : ∀ c ∈ w, isAlnumChar c = true) :
    ∀ c ∈ applyForceCases fc w, isAlnumChar c = true := by
  unfold applyForceCases
  cases hfind : fc.find? (fun caseWord => equalFold w caseWord) with
  | none => exact hw
  | some cw =>
    intro c hc
    have hfold : equalFold w cw = true := List.find?_some hfind
    unfold equalFold at hfold
    have hmap : w.map toLowerC = cw.map toLowerC := eq_of_beq hfold
    have : toLowerC c ∈ cw.map toLowerC := List.mem_map_of_mem _ hc
    rw [← hmap] at this
    rcases List.mem_map.mp this with ⟨d, hd, hde⟩
    exact alnum_of_toLowerC_eq c d (hw d hd) hde.symm

theorem convert_all_alnum (s : List Char) (fc : List (List Char)) :
    ∀ c ∈ convertToExportedIdentifier s fc, isAlnumChar c = true := by
  rw [convert_eq_fix_concat]
  have hconcat : ∀ c ∈ normalizedConcat s fc, isAlnumChar c = true := by
    intro c hc
    unfold normalizedConcat at hc
    rcases List.mem_flatten.mp hc with ⟨w', hw', hcw'⟩
    rcases List.mem_map.mp hw' with ⟨w, hw, rfl⟩
    exact applyForceCases_all_alnum fc w (capWords_all_alnum s w hw) c hcw'
  cases hnc : normalizedConcat s fc with
  | nil => simp [exportedFix, isAlnumChar, isAlphaC, isUpperC, isLowerC, isDigitC]
  | cons a r =>
    simp only [exportedFix]
    by_cases ha : isUpperC a
    · rw [if_pos ha, ← hnc]
      exact hconcat
    · rw [if_neg ha]
      intro c hc
      rcases List.mem_cons.mp hc with rfl | hc
      · decide
      · rw [← hnc] at hc
        exact hconcat c hc

theorem convert_head_upper (s : List Char) (fc : List (List Char)) :
    ∃ c rest, convertToExportedIdentifier s fc = c :: rest ∧ isUpperC c = true := by
  rw [convert_eq_fix_concat]
  cases normalizedConcat s fc with
  | nil => exact ⟨'E', [], rfl, by decide⟩
  | cons a r =>
    simp only [exportedFix]
    by_cases ha : isUpperC a
    · rw [if_pos ha]
      exact ⟨a, r, rfl, ha⟩
    · rw [if_neg ha]
      exact ⟨'E', a :: r, rfl, by decide⟩

/-- A non-empty all-alphanumeric string starting with an upper-case letter is
a fixed point of `convertToExportedIdentifier` with no force-cases. -/
theorem convert_fixed (c : Char) (rest : List Char)
    (hall : ∀ d ∈ c :: rest, isAlnumChar d = true) (hc : isUpperC c = true) :
    convertToExportedIdentifier (c :: rest) [] = c :: rest := by
  rw [convert_eq_fix_concat]
  have hcw : capWords (c :: rest) = [c :: rest] := by
    rw [capWords, if_pos (hall c (List.mem_cons_self _ _))]
    rw [takeWhile_all _ _ fun d hd => hall d (List.mem_cons_of_mem _ hd)]
    rw [dropWhile_all _ _ fun d hd => hall d (List.mem_cons_of_mem _ hd)]
    rw [toUpperC_of_upper c hc, capWords]
  have hnc : normalizedConcat (c :: rest) [] = c :: rest := by
    unfold normalizedConcat
    rw [hcw]
    simp [applyForceCases, List.find?]
  rw [hnc]
  simp only [exportedFix]
  rw [if_pos hc]

theorem convert_no_underscore (s : List Char) (fc : List (List Char)) :
    '_' ∉ convertToExportedIdentifier s fc := fun h =>
  absurd (convert_all_alnum s fc '_' h) (by decide)

/-! ## Claims about the identifier normalizer -/

/-- C1 (counterexample): the claim describes the output of
`convertToExportedIdentifier` as the bare concatenation of the force-cased
capitalized runs, but on the separator-containing input `"1_a"` the function
prefixes the sentinel letter: it returns `"E1A"`, not the concatenation
`"1A"`. -/
theorem claim_C1_counterexample :
    ('_' ∈ ("1_a".data) ∧ ('_' = ' ' ∨ '_' = '_' ∨ '_' = '-')) ∧
    convertToExportedIdentifier ("1_a".data) [] ≠ normalizedConcat ("1_a".data) [] := by
  refine ⟨⟨by decide, by decide⟩, ?_⟩
  have h1 : convertToExportedIdentifier ("1_a".data) [] = "E1A".data := by decide
  have h2 : normalizedConcat ("1_a".data) [] = "1A".data := by
    unfold normalizedConcat
    rw [← wordLoop_eq_capWords]
    decide
  rw [h1, h2]
  decide

/-- C1 (amended): for every raw name containing a separator (space,
underscore, hyphen) and every force-cases list, `convertToExportedIdentifier`
splits the input into maximal runs of letters/digits, upper-cases the first
character of each run leaving the rest as-is, replaces a run that
case-insensitively equals a force-cases entry with that entry's exact casing,
concatenates the runs with no separator, and finally prefixes the sentinel
letter `'E'` when that concatenation is empty or does not start with an
upper-case letter; in particular `normalize("user_id", []) = "UserId"` and
`normalize("user_id", ["ID"]) = "UserID"`. -/
theorem claim_C1 :
    (∀ (s : List Char) (fc : List (List Char)),
      (∃ c ∈ s, c = ' ' ∨ c = '_' ∨ c = '-') →
      convertToExportedIdentifier s fc = exportedFix (normalizedConcat s fc)) ∧
    convertToExportedIdentifierS "user_id" [] = "UserId" ∧
    convertToExportedIdentifierS "user_id" ["ID"] = "UserID" :=
  ⟨fun s fc _ => convert_eq_fix_concat s fc, by decide, by decide⟩

theorem claim_C1_witness :
    (∃ c ∈ ("user_id".data), c = ' ' ∨ c = '_' ∨ c = '-') ∧
    convertToExportedIdentifier ("user_id".data) [] =
      exportedFix (normalizedConcat ("user_id".data) []) :=
  ⟨⟨'_', by decide, by decide⟩, claim_C1.1 _ _ ⟨'_', by decide, by decide⟩⟩

/-- C7: on the empty string and on every input with no letters or digits the
result is exactly the sentinel `"E"`; in general, whenever the concatenation
of the force-cased runs is empty or does not start with an upper-case letter
the sentinel letter is prefixed, and the result always is non-empty and
starts with an upper-case letter. -/
theorem claim_C7 (s : List Char) (fc : List (List Char)) :
    ((∀ c ∈ s, isAlnumChar c = false) → convertToExportedIdentifier s fc = ['E']) ∧
    (normalizedConcat s fc = [] → convertToExportedIdentifier s fc = ['E']) ∧
    (∀ c rest, normalizedConcat s fc = c :: rest → isUpperC c = false →
      convertToExportedIdentifier s fc = 'E' :: c :: rest) ∧
    (∃ c rest, convertToExportedIdentifier s fc = c :: rest ∧ isUpperC c = true) := by
  refine ⟨?_, ?_, ?_, convert_head_upper s fc⟩
  · intro h
    rw [convert_eq_fix_concat]
    unfold normalizedConcat
    rw [capWords_nil_of_no_alnum s h]
    rfl
  · intro h
    rw [convert_eq_fix_concat, h]
    rfl
  · intro c rest h hup
    rw [convert_eq_fix_concat, h]
    simp only [exportedFix]
    rw [if_neg (by simp [hup])]

theorem claim_C7_witness :
    (∀ c ∈ ("%-%".data), isAlnumChar c = false) ∧
    convertToExportedIdentifier ("%-%".data) [] = ['E'] :=
  ⟨by decide, (claim_C7 ("%-%".data) []).1 (by decide)⟩

/-- C8 (counterexample): `convertToExportedIdentifier` is not idempotent on
its own output for every force-cases list: with `forceCases = ["Ab"]`, the
input `"a_b"` normalizes to `"AB"` (the per-word force-case does not fire),
but re-normalizing `"AB"` treats the whole output as one word, which
case-insensitively equals `"Ab"` and is replaced, giving `"Ab"` ≠ `"AB"`. -/
theorem claim_C8_counterexample :
    convertToExportedIdentifier
        (convertToExportedIdentifier ("a_b".data) [("Ab".data)]) [("Ab".data)] ≠
      convertToExportedIdentifier ("a_b".data) [("Ab".data)] := by
  decide

/-- C8 (amended): `convertToExportedIdentifier` is idempotent on its own
output when no force-cases are supplied: the output contains no separators,
starts with an upper-case letter, and so re-normalizing returns it unchanged;
in particular re-normalizing `"UserId"` yields `"UserId"`.  With a non-empty
force-cases list a second pass can force-case the whole output as a single
word and change it. -/
theorem claim_C8 :
    (∀ s : List Char,
      convertToExportedIdentifier (convertToExportedIdentifier s []) [] =
        convertToExportedIdentifier s []) ∧
    convertToExportedIdentifierS (convertToExportedIdentifierS "UserId" []) [] =
      convertToExportedIdentifierS "UserId" [] := by
  have hmain : ∀ s : List Char,
      convertToExportedIdentifier (convertToExportedIdentifier s []) [] =
        convertToExportedIdentifier s [] := by
    intro s
    obtain ⟨c, rest, heq, hup⟩ := convert_head_upper s []
    rw [heq]
    exact convert_fixed c rest (fun d hd => convert_all_alnum s [] d (heq ▸ hd)) hup
  exact ⟨hmain, by decide⟩

/-- C10: for every input and every force-cases list — including entries
containing non-alphanumeric characters — the output of
`convertToExportedIdentifier` consists solely of letters and digits. -/
theorem claim_C10 (s : List Char) (fc : List (List Char)) (c : Char)
    (h : c ∈ convertToExportedIdentifier s fc) : isAlnumChar c = true :=
  convert_all_alnum s fc c h

theorem claim_C10_witness :
    'B' ∈ convertToExportedIdentifier ("a_b!".data) [("n#t".data)] ∧
    isAlnumChar 'B' = true :=
  ⟨by decide, claim_C10 ("a_b!".data) [("n#t".data)] 'B' (by decide)⟩

/-! ## Type mapper lemmas and claims -/

theorem baseType_mem_table (fd : FieldDescriptor) (goType fieldClass : String)
    (h : baseType fd = some (goType, fieldClass)) :
    (goType, fieldClass) ∈ [("int8", "NumberField"), ("int16", "NumberField"),
      ("int32", "NumberField"), ("int64", "NumberField"), ("float64", "NumberField"),
      ("string", "StringField"), ("sqlingo.WellKnownBinary", "WellKnownBinaryField"),
      ("bool", "BooleanField")] := by
  simp only [baseType] at h
  repeat' split at h
  all_goals try exact Option.noConfusion h
  all_goals
    injection h with h'
    rw [Prod.mk.injEq] at h'
    obtain ⟨rfl, rfl⟩ := h'
    decide

theorem baseType_none_of_not_mem (fd : FieldDescriptor)
    (h : toLowerStr fd.rawType ∉ recognizedRawTypes) : baseType fd = none := by
  have hne : ∀ t : String, t ∈ recognizedRawTypes → ¬(toLowerStr fd.rawType = t) := by
    intro t ht he
    exact h (he ▸ ht)
  simp only [baseType]
  rw [if_neg (hne "tinyint" (by decide)),
    if_neg (hne "smallint" (by decide)),
    if_neg (fun he => he.elim (hne "int" (by decide)) (hne "mediumint" (by decide))),
    if_neg (fun he => he.elim (hne "bigint" (by decide)) (hne "integer" (by decide))),
    if_neg (fun he => he.elim (hne "float" (by decide)) (fun he2 => he2.elim
      (hne "double" (by decide)) (fun he3 => he3.elim (hne "decimal" (by decide))
        (hne "real" (by decide)))))]
  rw [if_neg (fun he => by
    simp only [List.mem_cons, List.mem_singleton, List.not_mem_nil, or_false] at he
    rcases he with he | he | he | he | he | he | he | he | he | he | he | he | he | he <;>
      exact hne _ (by decide) he)]
  rw [if_neg (fun he => by
    simp only [List.mem_cons, List.mem_singleton, List.not_mem_nil, or_false] at he
    rcases he with he | he | he | he | he | he <;>
      exact hne _ (by decide) he)]
  rw [if_neg (fun he => by
    simp only [List.mem_cons, List.mem_singleton, List.not_mem_nil, or_false] at he
    rcases he with he | he | he | he | he | he | he | he <;>
      exact hne _ (by decide) he)]
  rw [if_neg (hne "bit" (by decide))]

theorem baseType_isSome_of_mem (fd : FieldDescriptor)
    (h : toLowerStr fd.rawType ∈ recognizedRawTypes) : (baseType fd).isSome = true := by
  simp only [recognizedRawTypes, List.mem_cons, List.not_mem_nil, or_false] at h
  simp only [baseType]
  rcases h with h|h|h|h|h|h|h|h|h|h|h|h|h|h|h|h|h|h|h|h|h|h|h|h|h|h|h|h|h|h|h|h|h|h|h|h|h|h|h <;>
    rw [h] <;> simp [List.mem_cons]
  all_goals split <;> simp

/-- C2: `getType` succeeds (with a scalar type and a field category) on every
descriptor whose lower-cased raw type is recognized, and fails with the
`unknown field type` error — never a partial or default result — on every
descriptor whose lower-cased raw type is not recognized.  (Determinism is
immediate: `getType` is a function of the descriptor.) -/
theorem claim_C2 (fd : FieldDescriptor) :
    (toLowerStr fd.rawType ∈ recognizedRawTypes →
      ∃ goType fieldClass, getType fd = .ok (goType, fieldClass)) ∧
    (toLowerStr fd.rawType ∉ recognizedRawTypes →
      getType fd = .error ("unknown field type " ++ fd.rawType)) := by
  constructor
  · intro h
    rcases Option.isSome_iff_exists.mp (baseType_isSome_of_mem fd h) with ⟨⟨g, c⟩, hp⟩
    refine ⟨nullWrap fd.AllowNull (unsignedWrap fd.Unsigned g), c, ?_⟩
    unfold getType
    rw [hp]
  · intro h
    unfold getType
    rw [baseType_none_of_not_mem fd h]

theorem claim_C2_witness :
    (toLowerStr "INT" ∈ recognizedRawTypes ∧
      ∃ goType fieldClass,
        getType { Name := "c", rawType := "INT", Size := 0, Unsigned := false,
                  AllowNull := true, Comment := "" } = .ok (goType, fieldClass)) ∧
    (toLowerStr "foo" ∉ recognizedRawTypes ∧
      getType { Name := "c", rawType := "foo", Size := 0, Unsigned := false,
                AllowNull := false, Comment := "" } =
        .error ("unknown field type " ++ "foo")) :=
  ⟨⟨by decide, (claim_C2 _).1 (by decide)⟩, ⟨by decide, (claim_C2 _).2 (by decide)⟩⟩

theorem unsignedWrap_non_int (u : Bool) (g : String)
    (h : strStartsWith g "int" = false) : unsignedWrap u g = g := by
  simp [unsignedWrap, h]

/-- C3: on every descriptor on which the family switch succeeds, `getType`
returns exactly the nullable-wrap of the unsigned-wrap of the family-mapped
scalar type (both transforms applied after family lookup); the unsigned wrap
turns an integer base into its unsigned variant of the same width, leaves
every non-integer base (float, string, boolean, geometry) unchanged, and the
nullable wrap always prefixes the pointer marker, regardless of category. -/
theorem claim_C3 (fd : FieldDescriptor) (goType fieldClass : String)
    (h : baseType fd = some (goType, fieldClass)) :
    getType fd = .ok (nullWrap fd.AllowNull (unsignedWrap fd.Unsigned goType), fieldClass) ∧
    (isIntBase goType = true → unsignedWrap true goType = "u" ++ goType) ∧
    (isIntBase goType = false → unsignedWrap fd.Unsigned goType = goType) ∧
    (∀ t : String, nullWrap true t = "*" ++ t) := by
  refine ⟨by unfold getType; rw [h], ?_, ?_, fun t => rfl⟩
  · intro hi
    simp only [isIntBase, Bool.or_eq_true, beq_iff_eq] at hi
    rcases hi with ((rfl | rfl) | rfl) | rfl <;> decide
  · intro hi
    have hmem := baseType_mem_table fd goType fieldClass h
    simp only [List.mem_cons, List.not_mem_nil, or_false] at hmem
    rcases hmem with h8 | h8 | h8 | h8 | h8 | h8 | h8 | h8 <;>
      obtain ⟨rfl, rfl⟩ := Prod.mk.inj h8 <;>
      first
        | exact absurd hi (by decide)
        | exact unsignedWrap_non_int _ _ (by decide)

theorem claim_C3_witness :
    baseType { Name := "n", rawType := "BigInt", Size := 0, Unsigned := true,
               AllowNull := true, Comment := "" } = some ("int64", "NumberField") ∧
    (getType { Name := "n", rawType := "BigInt", Size := 0, Unsigned := true,
               AllowNull := true, Comment := "" } =
      .ok (nullWrap true (unsignedWrap true "int64"), "NumberField") ∧
    (isIntBase "int64" = true → unsignedWrap true "int64" = "u" ++ "int64") ∧
    (isIntBase "int64" = false → unsignedWrap true "int64" = "int64") ∧
    (∀ t : String, nullWrap true t = "*" ++ t)) :=
  ⟨by decide, claim_C3 _ "int64" "NumberField" (by decide)⟩

/-! ## Claims about the wrapper-type names -/

theorem append_underscore_inj (x : List Char) : ∀ (y u v : List Char),
    '_' ∉ u → '_' ∉ v → x ++ '_' :: u = y ++ '_' :: v → x = y ∧ u = v := by
  induction x with
  | nil =>
    intro y u v hu hv h
    cases y with
    | nil => simpa using h
    | cons d y' =>
      simp only [List.nil_append, List.cons_append, List.cons.injEq] at h
      obtain ⟨rfl, h2⟩ := h
      exact absurd (h2 ▸ List.mem_append_right y' (List.mem_cons_self _ _)) hu
  | cons c x' ih =>
    intro y u v hu hv h
    cases y with
    | nil =>
      simp only [List.cons_append, List.nil_append, List.cons.injEq] at h
      obtain ⟨rfl, h2⟩ := h
      exact absurd (h2.symm ▸ List.mem_append_right x' (List.mem_cons_self _ _)) hv
    | cons d y' =>
      simp only [List.cons_append, List.cons.injEq] at h
      obtain ⟨rfl, h2⟩ := h
      obtain ⟨rfl, rfl⟩ := ih y' u v hu hv h2
      exact ⟨rfl, rfl⟩

/-- C9 (counterexample): two distinct table names can normalize to the same
identifier, and then columns with the same name and raw type get the same
wrapper-type name: tables `"users"` and `"Users"` both normalize to
`"Users"`, so an `int` column `"id"` in each yields `"int_Users_Id"` twice. -/
theorem claim_C9_counterexample :
    ("users" : String) ≠ "Users" ∧
    fieldStructNameOf fdIdIntW (convertToExportedIdentifierS "users" []) [] =
      fieldStructNameOf fdIdIntW (convertToExportedIdentifierS "Users" []) [] :=
  ⟨by decide, by decide⟩

/-- C9 (amended): the wrapper-type names derived from
`(lower(rawType), tableIdentifier, goName)` are distinct whenever the two
tables' normalized identifiers are distinct (for any two columns, even with
equal names and raw types): the normalized identifier and the normalized
column name contain no underscore, so the three components can be recovered
from the concatenation.  Two distinct table names that normalize to the same
identifier (such as `"users"` and `"Users"`) defeat the uniqueness. -/
theorem claim_C9 (fd1 fd2 : FieldDescriptor) (tn1 tn2 : String) (fc : List String)
    (hcls : convertToExportedIdentifierS tn1 fc ≠ convertToExportedIdentifierS tn2 fc) :
    fieldStructNameOf fd1 (convertToExportedIdentifierS tn1 fc) fc ≠
      fieldStructNameOf fd2 (convertToExportedIdentifierS tn2 fc) fc := by
  intro he
  apply hcls
  have hd := congrArg String.data he
  simp only [fieldStructNameOf, String.data_append] at hd
  have hre : ∀ a b c : List Char, a ++ ['_'] ++ b ++ ['_'] ++ c = (a ++ '_' :: b) ++ '_' :: c := by
    intro a b c
    simp
  rw [hre, hre] at hd
  have hgn1 : '_' ∉ (convertToExportedIdentifierS fd1.Name fc).data :=
    convert_no_underscore fd1.Name.data (fc.map String.data)
  have hgn2 : '_' ∉ (convertToExportedIdentifierS fd2.Name fc).data :=
    convert_no_underscore fd2.Name.data (fc.map String.data)
  obtain ⟨hx, -⟩ := append_underscore_inj _ _ _ _ hgn1 hgn2 hd
  have hcl1 : '_' ∉ (convertToExportedIdentifierS tn1 fc).data :=
    convert_no_underscore tn1.data (fc.map String.data)
  have hcl2 : '_' ∉ (convertToExportedIdentifierS tn2 fc).data :=
    convert_no_underscore tn2.data (fc.map String.data)
  obtain ⟨-, hcls'⟩ := append_underscore_inj _ _ _ _ hcl1 hcl2 hx
  exact congrArg String.mk hcls'

theorem claim_C9_witness :
    convertToExportedIdentifierS "orders" [] ≠ convertToExportedIdentifierS "users" [] ∧
    fieldStructNameOf fdIdIntW (convertToExportedIdentifierS "orders" []) [] ≠
      fieldStructNameOf fdIdIntW (convertToExportedIdentifierS "users" []) [] :=
  ⟨by decide, claim_C9 fdIdIntW fdIdIntW "orders" "users" [] (by decide)⟩

/-! ## Table emitter lemmas and claims -/

theorem getTypes_length : ∀ (fds : List FieldDescriptor) (gs : List (String × String)),
    getTypes fds = .ok gs → gs.length = fds.length := by
  intro fds
  induction fds with
  | nil =>
    intro gs h
    simp only [getTypes] at h
    injection h with h
    rw [← h]
    rfl
  | cons fd rest ih =>
    intro gs h
    simp only [getTypes] at h
    cases hg : getType fd with
    | error e => rw [hg] at h; exact Except.noConfusion h
    | ok g =>
      rw [hg] at h
      cases hgs : getTypes rest with
      | error e => rw [hgs] at h; exact Except.noConfusion h
      | ok gs' =>
        rw [hgs] at h
        injection h with h
        rw [← h]
        simp [ih gs' hgs]

theorem getTypes_getElem : ∀ (fds : List FieldDescriptor) (gs : List (String × String)),
    getTypes fds = .ok gs → ∀ i (h3 : i < fds.length) (h4 : i < gs.length),
    getType fds[i] = .ok gs[i] := by
  intro fds
  induction fds with
  | nil =>
    intro gs h i h3 h4
    exact absurd h3 (by simp)
  | cons fd rest ih =>
    intro gs h i h3 h4
    simp only [getTypes] at h
    cases hg : getType fd with
    | error e => rw [hg] at h; exact Except.noConfusion h
    | ok g =>
      rw [hg] at h
      cases hgs : getTypes rest with
      | error e => rw [hgs] at h; exact Except.noConfusion h
      | ok gs' =>
        rw [hgs] at h
        injection h with h
        subst h
        cases i with
        | zero => simpa using hg
        | succ j =>
          simp only [List.getElem_cons_succ]
          exact ih gs' hgs j (by simpa using h3) (by simpa using h4)

/-- Characterization of a successful run of the field loop: the model-line
buffer and the value buffer each receive exactly one chunk per descriptor,
in descriptor order. -/
theorem tableLoop_ok (quote : String → String) (tn cn ton : String) (fc : List String) :
    ∀ (fds : List FieldDescriptor) (p q : TableParts),
    tableLoop quote tn cn ton fc fds p = .ok q →
    ∃ gs, getTypes fds = .ok gs ∧ gs.length = fds.length ∧
      q.modelLines = p.modelLines ++ (fds.zip gs).map (fun x =>
        commentLineOf x.1 ++ "\t" ++ convertToExportedIdentifierS x.1.Name fc ++
          " " ++ x.2.1 ++ "\n") ∧
      q.values = p.values ++ fds.map (fun fd =>
        "m." ++ convertToExportedIdentifierS fd.Name fc ++ ", ") := by
  intro fds
  induction fds with
  | nil =>
    intro p q h
    simp only [tableLoop] at h
    injection h with h
    subst h
    exact ⟨[], rfl, rfl, by simp, by simp⟩
  | cons fd rest ih =>
    intro p q h
    simp only [tableLoop] at h
    cases hg : getType fd with
    | error e => rw [hg] at h; exact Except.noConfusion h
    | ok g =>
      obtain ⟨goType, fieldClass⟩ := g
      rw [hg] at h
      obtain ⟨gs, hgs, hlen, hm, hv⟩ := ih _ _ h
      refine ⟨(goType, fieldClass) :: gs, ?_, by simp [hlen], ?_, ?_⟩
      · simp only [getTypes, hg, hgs]
      · rw [hm]
        simp [appendFd]
      · rw [hv]
        simp [appendFd]

/-- C4: on every successful run of the field-emission loop, the model
record's field declarations and the `GetValues` chunks are in exactly the
order of the column descriptors: there is one of each per descriptor, and
the `i`-th model line and the `i`-th value chunk are both built from the
normalized name of the `i`-th descriptor. -/
theorem claim_C4 (quote : String → String) (tableName : String) (fc : List String)
    (fds : List FieldDescriptor) (q : TableParts)
    (h : generateTableParts quote tableName fc fds = .ok q) :
    q.modelLines.length = fds.length ∧ q.values.length = fds.length ∧
    ∀ i (h1 : i < q.modelLines.length) (h2 : i < q.values.length) (h3 : i < fds.length),
      (∃ goType fieldClass, getType fds[i] = .ok (goType, fieldClass) ∧
        q.modelLines[i] = commentLineOf fds[i] ++ "\t" ++
          convertToExportedIdentifierS (fds[i]).Name fc ++ " " ++ goType ++ "\n") ∧
      q.values[i] = "m." ++ convertToExportedIdentifierS (fds[i]).Name fc ++ ", " := by
  simp only [generateTableParts] at h
  obtain ⟨gs, hgs, hlen, hm, hv⟩ := tableLoop_ok _ _ _ _ _ fds _ q h
  simp only [initialParts, List.nil_append] at hm hv
  refine ⟨by simp [hm, hlen], by simp [hv], ?_⟩
  intro i h1 h2 h3
  have h4 : i < gs.length := hlen ▸ h3
  refine ⟨⟨(gs[i]).1, (gs[i]).2, ?_, ?_⟩, ?_⟩
  · simpa using getTypes_getElem fds gs hgs i h3 h4
  · simp only [hm, List.getElem_map, List.getElem_zip]
  · simp only [hv, List.getElem_map]

theorem claim_C4_witness :
    generateTableParts quoteW "users" [] fdsW = .ok partsW ∧
    (partsW.modelLines.length = fdsW.length ∧ partsW.values.length = fdsW.length ∧
    ∀ i (h1 : i < partsW.modelLines.length) (h2 : i < partsW.values.length)
      (h3 : i < fdsW.length),
      (∃ goType fieldClass, getType fdsW[i] = .ok (goType, fieldClass) ∧
        partsW.modelLines[i] = commentLineOf fdsW[i] ++ "\t" ++
          convertToExportedIdentifierS (fdsW[i]).Name [] ++ " " ++ goType ++ "\n") ∧
      partsW.values[i] = "m." ++ convertToExportedIdentifierS (fdsW[i]).Name [] ++ ", ") :=
  ⟨by decide, claim_C4 quoteW "users" [] fdsW partsW (by decide)⟩

/-! ## Orchestrator lemmas and claims -/

theorem emitTables_ext (g f : SchemaFetcher)
    (hfd : g.GetFieldDescriptors = f.GetFieldDescriptors)
    (hq : g.QuoteIdentifier = f.QuoteIdentifier) (dbName : String) (fc : List String) :
    ∀ tns : List String, emitTables g dbName fc tns = emitTables f dbName fc tns := by
  intro tns
  induction tns with
  | nil => rfl
  | cons tn rest ih =>
    simp only [emitTables, ih]
    have hu : generateTableUnit g dbName tn fc = generateTableUnit f dbName tn fc := by
      simp only [generateTableUnit, hfd, hq]
    rw [hu]

theorem emitTables_names (f : SchemaFetcher) (dbName : String) (fc : List String) :
    ∀ (tns : List String) (us : List (String × String)),
    emitTables f dbName fc tns = .ok us → us.map Prod.fst = tns := by
  intro tns
  induction tns with
  | nil =>
    intro us h
    simp only [emitTables] at h
    injection h with h
    rw [← h]
    rfl
  | cons tn rest ih =>
    intro us h
    simp only [emitTables] at h
    cases hg : generateTableUnit f dbName tn fc with
    | error e => rw [hg] at h; exact Except.noConfusion h
    | ok u =>
      rw [hg] at h
      cases hr : emitTables f dbName fc rest with
      | error e => rw [hr] at h; exact Except.noConfusion h
      | ok us' =>
        rw [hr] at h
        injection h with h
        rw [← h]
        simp [ih us' hr]

/-- C5: when the configuration carries a non-empty explicit table list,
`Generate` emits exactly one table unit per listed name, in the given order,
and its result does not depend on `GetTableNames` at all (so no unit is ever
emitted for an unlisted table); when the list is empty, the emitted units
follow exactly the names `GetTableNames` returned, in their order. -/
theorem claim_C5 (f : SchemaFetcher) (opts : Options) :
    (opts.tableNames ≠ [] →
      (∀ alt, generateUnits { f with GetTableNames := alt } opts = generateUnits f opts) ∧
      (∀ base units, generateUnits f opts = .ok (base, units) →
        units.map Prod.fst = opts.tableNames)) ∧
    (opts.tableNames = [] →
      ∀ ns, f.GetTableNames = .ok ns →
        ∀ base units, generateUnits f opts = .ok (base, units) →
          units.map Prod.fst = ns) := by
  constructor
  · intro hne
    have hlen : ¬(opts.tableNames.length = 0) := by
      simpa [List.length_eq_zero] using hne
    constructor
    · intro alt
      simp only [generateUnits]
      cases f.GetDatabaseName with
      | error e => rfl
      | ok dbName =>
        by_cases hdb : dbName = ""
        · simp [hdb]
        · simp only [hlen, if_false, hdb, if_neg, ite_false]
          rw [emitTables_ext
            ⟨Except.ok dbName, alt, f.GetFieldDescriptors, f.QuoteIdentifier⟩ f rfl rfl
            dbName opts.forceCases opts.tableNames]
    · intro base units h
      simp only [generateUnits] at h
      rw [if_neg hlen] at h
      split at h
      · exact Except.noConfusion h
      · split at h
        · exact Except.noConfusion h
        · split at h
          · rename_i e heq
            exact Except.noConfusion heq
          · rename_i tableNames heq
            injection heq with heq
            subst heq
            split at h
            · exact Except.noConfusion h
            · rename_i us hus
              injection h with h
              rw [Prod.mk.injEq] at h
              rw [← h.2]
              exact emitTables_names f _ opts.forceCases opts.tableNames us hus
  · intro hnil ns hns base units h
    have hlen : opts.tableNames.length = 0 := by simp [hnil]
    simp only [generateUnits] at h
    rw [if_pos hlen, hns] at h
    split at h
    · exact Except.noConfusion h
    · split at h
      · exact Except.noConfusion h
      · split at h
        · rename_i e heq
          exact Except.noConfusion heq
        · rename_i tableNames heq
          injection heq with heq
          subst heq
          split at h
          · exact Except.noConfusion h
          · rename_i us hus
            injection h with h
            rw [Prod.mk.injEq] at h
            rw [← h.2]
            exact emitTables_names f _ opts.forceCases ns us hus

theorem claim_C5_witness :
    optsW.tableNames ≠ [] ∧
    (∀ alt, generateUnits { fetcherW with GetTableNames := alt } optsW =
      generateUnits fetcherW optsW) :=
  ⟨by decide, ((claim_C5 fetcherW optsW).1 (by decide)).1⟩

/-- C6: every base unit contains the version-guard pair: the two constant
expressions that subtract the generator version constant from the runtime
version symbol and vice versa, and the generator version constant is 2. -/
theorem claim_C6 (dbName : String) (tableNames : List String) (fc : List String) :
    sqlingoGeneratorVersion = 2 ∧
    ("const _ = sqlingoRuntimeAndGeneratorVersionsShouldBeTheSame(sqlingo.SqlingoRuntimeVersion - " ++
        toString sqlingoGeneratorVersion ++ ")\n") ∈ baseUnitChunks dbName tableNames fc ∧
    ("const _ = sqlingoRuntimeAndGeneratorVersionsShouldBeTheSame(" ++
        toString sqlingoGeneratorVersion ++ " - sqlingo.SqlingoRuntimeVersion)\n\n") ∈
      baseUnitChunks dbName tableNames fc := by
  refine ⟨rfl, ?_, ?_⟩
  · simp only [baseUnitChunks, headerChunks]
    simp
  · simp only [baseUnitChunks, headerChunks]
    simp

end SqlingoGen
